import Mathlib

/-!
Verification of the crawl4ai-sitemap crawler scripts (src/crawler/crawl.py,
crawl-v1.py, crawl-v2.py) against their natural-language specification.

The repository's scripts operate on Python strings; we model the relevant
Python string primitives over `List Char` (Lean `String` in this toolchain is
a wrapper around `List Char`), so that every definition is executable and
concrete instances evaluate by `decide` or `rfl`.  The HTTP transport and the
HTML/XML parsers are the spec's declared external collaborators: fetching is
modelled as a function from a URL to an optional parsed document, and HTML
documents as a tree of element/text nodes.
-/

/-! ## Python string primitives, modelled over `List Char` -/

/-- Boolean prefix test on character lists. -/
def isPfx : List Char → List Char → Bool
  | [], _ => true
  | _ :: _, [] => false
  | a :: as, b :: bs => a == b && isPfx as bs

/-- Boolean contiguous-substring test on character lists. -/
def hasSub (pat : List Char) : List Char → Bool
  | [] => pat.isEmpty
  | c :: cs => isPfx pat (c :: cs) || hasSub pat cs

/-- Models Python `s.endswith(suffix)`. -/
def pyEndsWith (s suf : String) : Bool :=
  isPfx suf.data.reverse s.data.reverse

/-- ASCII lower-casing of one character (Python `str.lower` on the ASCII
URLs this program handles). -/
def lowerChar (c : Char) : Char :=
  if 65 ≤ c.toNat ∧ c.toNat ≤ 90 then Char.ofNat (c.toNat + 32) else c

/-- Models Python `s.lower()` (ASCII range). -/
def pyLower (s : String) : String := ⟨s.data.map lowerChar⟩

/-- Drop the given characters from both ends of a list. -/
def stripChars (cs : List Char) (l : List Char) : List Char :=
  ((l.dropWhile (fun c => cs.contains c)).reverse.dropWhile (fun c => cs.contains c)).reverse

/-- Models Python `s.strip()` (whitespace at both ends). -/
def pyStrip (s : String) : String :=
  ⟨((s.data.dropWhile Char.isWhitespace).reverse.dropWhile Char.isWhitespace).reverse⟩

/-- Models Python `s.strip(chars)` for an explicit character set. -/
def pyStripChars (cs : List Char) (s : String) : String := ⟨stripChars cs s.data⟩

/-- Split a character list at every character satisfying `p`
(Python `str.split(sep)` keeps empty fields; callers filter them). -/
def splitPred (p : Char → Bool) : List Char → List (List Char)
  | [] => [[]]
  | c :: cs =>
    match splitPred p cs with
    | [] => [[]]
    | r :: rs => if p c then [] :: r :: rs else (c :: r) :: rs

/-- Models Python `s.split(",")`. -/
def pySplitComma (s : String) : List String :=
  (splitPred (fun c => c == ',') s.data).map (fun l => (⟨l⟩ : String))

/-- Models Python `str.join` on a list of strings. -/
def joinSep (sep : String) : List String → String
  | [] => ""
  | [x] => x
  | x :: xs => x ++ sep ++ joinSep sep xs

/-- Models Python `" ".join(s.split())`: collapse whitespace runs. -/
def collapseWs (s : String) : String :=
  joinSep " " (((splitPred Char.isWhitespace s.data).map (fun l => (⟨l⟩ : String))).filter (fun x => x ≠ ""))

/-- One scanning step budgeted replacement: `pyReplaceFuel old new fuel l`
replaces every non-overlapping occurrence of `old` in `l` by `new`, scanning
left to right, exactly as Python `str.replace`.  The fuel is an upper bound on
the number of scanning steps; `l.length` always suffices because every step
consumes at least one character. -/
def pyReplaceFuel (old new : List Char) : Nat → List Char → List Char
  | _, [] => []
  | 0, l => l
  | fuel + 1, c :: cs =>
    if isPfx old (c :: cs) && !old.isEmpty then
      new ++ pyReplaceFuel old new fuel (cs.drop (old.length - 1))
    else
      c :: pyReplaceFuel old new fuel cs

/-- Models Python `s.replace(old, new)` (for non-empty `old`, the only use in
this repository). -/
def pyReplace (s old new : String) : String :=
  ⟨pyReplaceFuel old.data new.data s.data.length s.data⟩

/-! ## URL parsing (the fragment of `urllib.parse.urlparse` the scripts use)

Python's `urlsplit` takes the network location as the segment after the
scheme's `://` up to the first of `/`, `?` or `#`, and the path as the
remaining characters before the first `?` or `#`.  The scripts only consume
`parsed.netloc` and `parsed.path`. -/

/-- Return the characters after the first `://`, if present. -/
def afterSch : List Char → Option (List Char)
  | [] => none
  | c :: cs =>
    if c = ':' ∧ cs.take 2 = ['/', '/'] then some (cs.drop 2)
    else afterSch cs

/-- Character may belong to the network location (stops at `/`, `?`, `#`). -/
def keepNetloc (c : Char) : Bool := !(c == '/' || c == '?' || c == '#')

/-- Character may belong to the path (stops at `?`, `#`). -/
def keepPath (c : Char) : Bool := !(c == '?' || c == '#')

/-- The `(netloc, path)` pair of `urllib.parse.urlparse`. -/
def hostPath (url : String) : List Char × List Char :=
  match afterSch url.data with
  | some rest =>
    (rest.takeWhile keepNetloc, (rest.dropWhile keepNetloc).takeWhile keepPath)
  | none => ([], url.data.takeWhile keepPath)

/-- Models `urlparse(url).netloc`. -/
def netlocOf (url : String) : String := ⟨(hostPath url).1⟩

/-- Models `urlparse(url).path`. -/
def pathOf (url : String) : String := ⟨(hostPath url).2⟩

/-! ## Shared constants from the sources -/

/-- `SKIP_EXTENSIONS` of crawl.py and crawl-v2.py. -/
def SKIP_EXTENSIONS : List String :=
  [".jpg", ".jpeg", ".png", ".gif", ".webp", ".svg",
   ".ico", ".pdf", ".zip", ".rar", ".7z", ".mp3", ".mp4",
   ".avi", ".mov", ".wmv", ".ogg", ".webm", ".json", ".xml",
   ".txt", ".csv", ".js", ".css", ".woff", ".woff2", ".ttf"]

/-- The extension tuple crawl-v1.py's crawl loop skips. -/
def V1_SKIP_EXTENSIONS : List String :=
  [".jpg", ".jpeg", ".png", ".gif", ".webp", ".svg", ".ico", ".mp4"]

/-! ## Sitemap documents and resolution

Fetching plus XML parsing is the spec's opaque collaborator
`fetch(url) -> (status, body)` composed with `parse`: a corpus maps a sitemap
URL to `none` (transport error, non-200 status, or parse error — crawl.py
returns `[]` for all of these) or to a parsed document.  A document either
contains a `<sitemapindex>` (its `<loc>` texts), contains a `<urlset>` (its
`<url>` entries, each optionally carrying a `<loc>` text — `none` models a
`<url>` element without a direct `<loc>` child), or matches neither variant. -/

inductive SitemapDoc where
  | index (locs : List String)
  | urlset (entries : List (Option String))
  | other
deriving DecidableEq

/-- A fixed sitemap corpus: what fetching and parsing each URL yields. -/
def Corpus := String → Option SitemapDoc

/-- Models crawl.py `expand_sitemap_url(sitemap_url, depth=0, max_depth=3)`.

The Python function threads `depth` and `max_depth` but reads `depth` only to
indent log lines and never reads `max_depth` at all; both are kept here to
mirror the source.  `fuel` bounds the recursion as the Python interpreter's
recursion limit does (a `RecursionError` is swallowed by the function's own
`except` clause, yielding `[]` for that branch).

For an index document the code recurses on every stripped `<loc>` text; for a
urlset it keeps each `<url>` entry whose `<loc>` exists with non-empty text,
strips it, and drops it when the lower-cased full URL string ends with one of
`SKIP_EXTENSIONS`; a document matching neither variant contributes nothing. -/
def expand_sitemap_url (corpus : Corpus) : Nat → String → Nat → Nat → List String
  | 0, _, _, _ => []
  | fuel + 1, url, depth, maxDepth =>
    match corpus url with
    | none => []
    | some (.index locs) =>
      locs.flatMap (fun sm => expand_sitemap_url corpus fuel (pyStrip sm) (depth + 1) maxDepth)
    | some (.urlset entries) =>
      entries.filterMap (fun e =>
        match e with
        | none => none
        | some t =>
          if t = "" then none
          else
            let loc := pyStrip t
            if SKIP_EXTENSIONS.any (fun ext => pyEndsWith (pyLower loc) ext) then none
            else some loc)
    | some .other => []

/-- Models crawl.py `get_urls_from_config`: expand every configured seed with
the default arguments `depth=0, max_depth=3` and concatenate. -/
def get_urls_from_config (corpus : Corpus) (fuel : Nat) (seeds : List String) : List String :=
  seeds.flatMap (fun s => expand_sitemap_url corpus fuel s 0 3)

/-- Models crawl.py's crawl loop bound (line 174): `urls[:MAX_URLS]`. -/
def frontierCrawl (corpus : Corpus) (fuel : Nat) (seeds : List String) (maxUrls : Nat) : List String :=
  (get_urls_from_config corpus fuel seeds).take maxUrls

/-! ## crawl-v2.py seed collection and frontier -/

/-- Models the seed loop of crawl-v2.py `main` (lines 114-119): a seed ending
in `.xml` is fetched and parsed as a sitemap (`fetchParse`, which yields `[]`
on failure as `parse_sitemap` does), any other seed is appended directly. -/
def v2CollectUrls (fetchParse : String → List String) (seeds : List String) : List String :=
  seeds.flatMap (fun s => if pyEndsWith s ".xml" then fetchParse s else [s])

/-- Order-preserving first-seen deduplication, with an accumulator of already
seen keys: the recursion behind Python's `dict.fromkeys`. -/
def dedupAux (seen : List String) : List String → List String
  | [] => []
  | x :: xs => if x ∈ seen then dedupAux seen xs else x :: dedupAux (x :: seen) xs

/-- Models Python `list(dict.fromkeys(l))`: keep the first occurrence of each
string, in first-seen order. -/
def dedupFirstSeen (l : List String) : List String := dedupAux [] l

/-- Models crawl-v2.py line 126: `list(dict.fromkeys(all_urls))[:MAX_URLS]`. -/
def frontierV2 (urls : List String) (maxUrls : Nat) : List String :=
  (dedupFirstSeen urls).take maxUrls

/-! ## crawl-v1.py resolution

`parse_sitemap` in crawl-v1.py has no exception handler: `raise_for_status`
and `ET.fromstring` raise, and the caller `crawl` (lines 90-92) extends
`all_urls` inside no try block either, so the exception propagates and ends
the run.  `Except` models that propagation.  A parsed document contributes
every `<loc>` text found anywhere (`root.findall(".//sm:loc")`), stripped. -/

/-- Models crawl-v1.py `parse_sitemap`: the list of all stripped `<loc>`
texts on success, an uncaught exception on fetch or parse failure. -/
def parse_sitemap_v1 (corpus : Corpus) (u : String) : Except String (List String) :=
  match corpus u with
  | none => .error u
  | some (.index locs) => .ok (locs.map pyStrip)
  | some (.urlset entries) => .ok ((entries.filterMap id).map pyStrip)
  | some .other => .ok []

/-- Models the seed loop of crawl-v1.py `crawl` (lines 90-92): sequentially
extend with each seed's URLs; an exception from any seed aborts the run. -/
def v1Resolve (corpus : Corpus) : List String → Except String (List String)
  | [] => .ok []
  | s :: rest =>
    match parse_sitemap_v1 corpus s with
    | .error e => .error e
    | .ok us =>
      match v1Resolve corpus rest with
      | .error e => .error e
      | .ok vs => .ok (us ++ vs)

/-! ## HTML documents

A parsed HTML document (the output of the opaque parser collaborator) is a
forest of element and text nodes.  Elements carry the attributes the scripts'
CSS selectors can consult: the tag name, an optional `id`, and a class list. -/

mutual
inductive HNode where
  | elem (tag : String) (idAttr : Option String) (classes : List String) (children : HForest)
  | textNode (s : String)
inductive HForest where
  | nil
  | cons (n : HNode) (f : HForest)
end

/-- Build a forest from a list of nodes (convenience for concrete documents). -/
def ofList : List HNode → HForest
  | [] => .nil
  | n :: ns => .cons n (ofList ns)

mutual
/-- The text-node strings of a document, in document order
(`BeautifulSoup.get_text` enumerates them this way). -/
def textsN : HNode → List String
  | .textNode s => [s]
  | .elem _ _ _ ch => textsF ch
def textsF : HForest → List String
  | .nil => []
  | .cons n f => textsN n ++ textsF f
end

/-- Models `soup.get_text()` with no arguments: plain concatenation. -/
def getTextPlain (f : HForest) : String := String.join (textsF f)

/-- Models `get_text(separator=" ", strip=True)`: strip each string, drop the
ones that become empty, join with a single space. -/
def getTextSep (f : HForest) : String :=
  joinSep " " (((textsF f).map pyStrip).filter (fun x => x ≠ ""))

/-- Models `get_text(separator=" ", strip=True)` on a single node. -/
def nodeGetText (n : HNode) : String :=
  joinSep " " (((textsN n).map pyStrip).filter (fun x => x ≠ ""))

/-- Does one CSS selector of the forms `#id`, `.class` or `tag` (the forms the
configuration uses) match an element with these attributes? -/
def selMatches (sel tag : String) (idAttr : Option String) (classes : List String) : Bool :=
  match sel.data with
  | '#' :: r => idAttr == some (⟨r⟩ : String)
  | '.' :: r => classes.contains (⟨r⟩ : String)
  | _ => tag == sel

mutual
/-- Models `soup.select(sel)`: all matching elements in document order. -/
def selectN (sel : String) : HNode → List HNode
  | .textNode _ => []
  | .elem tag i cls ch =>
    (if selMatches sel tag i cls then [HNode.elem tag i cls ch] else []) ++ selectF sel ch
def selectF (sel : String) : HForest → List HNode
  | .nil => []
  | .cons n f => selectN sel n ++ selectF sel f
end

mutual
/-- Models `for tag in soup([...]): tag.extract()`: remove every element
whose tag is in the list, together with its subtree. -/
def removeTagsN (tags : List String) : HNode → Option HNode
  | .textNode s => some (.textNode s)
  | .elem t i c ch => if t ∈ tags then none else some (.elem t i c (removeTagsF tags ch))
def removeTagsF (tags : List String) : HForest → HForest
  | .nil => .nil
  | .cons n f =>
    match removeTagsN tags n with
    | none => removeTagsF tags f
    | some m => .cons m (removeTagsF tags f)
end

mutual
/-- Models `soup.find(tag)`: first element with this tag, in document order. -/
def findTagN (t : String) : HNode → Option HNode
  | .textNode _ => none
  | .elem tag i cls ch =>
    if tag = t then some (.elem tag i cls ch) else findTagF t ch
def findTagF (t : String) : HForest → Option HNode
  | .nil => none
  | .cons n f =>
    match findTagN t n with
    | some x => some x
    | none => findTagF t f
end

/-! ## Content extraction -/

/-- The selector list both crawl.py and crawl-v2.py compute from the
configured selector string: split on commas, strip, drop empties. -/
def selectorsOf (css : String) : List String :=
  ((pySplitComma css).map pyStrip).filter (fun s => s ≠ "")

/-- The selector loop shared by crawl.py `scrape_content` and crawl-v2.py
`extract_content`: first selector with a non-empty match set wins, joining the
matched nodes' texts with a blank line. -/
def selectLoop (doc : HForest) : List String → Option String
  | [] => none
  | sel :: rest =>
    match selectF sel doc with
    | [] => selectLoop doc rest
    | n :: ns => some (joinSep "\n\n" ((n :: ns).map nodeGetText))

/-- Models crawl.py `scrape_content` (lines 126-133): try each selector, and
fall back to the full-document text — with no element removal. -/
def scrape_content (css : String) (doc : HForest) : String :=
  match selectLoop doc (selectorsOf css) with
  | some s => s
  | none => getTextSep doc

/-- Models crawl-v2.py `extract_content` (lines 70-84): try each selector
(only when the configured selector string is non-empty), and fall back to the
full-document text after extracting `script`, `style` and `noscript`. -/
def extract_content (css : String) (doc : HForest) : String :=
  let sels := if css = "" then [] else selectorsOf css
  match selectLoop doc sels with
  | some s => s
  | none => getTextSep (removeTagsF ["script", "style", "noscript"] doc)

/-! ## crawl-v1.py fetch and crawl loop -/

/-- A transport response for crawl-v1.py: the HTTP status and the parsed
body (parsing is the opaque collaborator). -/
structure RespV1 where
  status : Nat
  doc : HForest

/-- Models `soup.title.string.strip() if soup.title and soup.title.string
else url`: the first `<title>` element's sole text child, stripped, with the
URL as fallback. -/
def titleOf (doc : HForest) (url : String) : String :=
  match findTagF "title" doc with
  | some (.elem _ _ _ (.cons (.textNode s) .nil)) => if s = "" then url else pyStrip s
  | _ => url

/-- Models crawl-v1.py `fetch_page` (lines 47-61): `none` on a transport
error or a `raise_for_status` failure (status ≥ 400); otherwise the title and
the whitespace-collapsed text after removing `script`, `style`, `noscript`. -/
def fetch_page (fetch : String → Option RespV1) (url : String) : Option (String × String) :=
  match fetch url with
  | none => none
  | some r =>
    if 400 ≤ r.status then none
    else
      let cleaned := removeTagsF ["script", "style", "noscript"] r.doc
      some (titleOf cleaned url, collapseWs (getTextPlain cleaned))

/-- The per-URL outcome of crawl-v1.py's crawl loop (lines 100-106). -/
inductive OutcomeV1 where
  | skippedExt
  | failed
  | notSaved
  | saved (title text : String)
deriving DecidableEq

/-- One iteration of crawl-v1.py's crawl loop: skip listed extensions (the
check is on the whole lower-cased URL string), fetch, save when both title
and text are truthy. -/
def processV1 (fetch : String → Option RespV1) (u : String) : OutcomeV1 :=
  if V1_SKIP_EXTENSIONS.any (fun ext => pyEndsWith (pyLower u) ext) then .skippedExt
  else
    match fetch_page fetch u with
    | none => .failed
    | some (t, x) => if t ≠ "" ∧ x ≠ "" then .saved t x else .notSaved

/-- Models crawl-v1.py's whole crawl loop: each URL of the list yields its
own outcome; the loop body touches no cross-URL state (the pacing sleep and
log lines are not modelled), so the run is the list of per-URL outcomes. -/
def crawlV1Run (fetch : String → Option RespV1) (urls : List String) : List (String × OutcomeV1) :=
  urls.map (fun u => (u, processV1 fetch u))

/-! ## Path mapping -/

/-- Models crawl-v2.py `domain_from_url` (lines 30-32) and crawl.py line 136:
`urlparse(url).netloc.replace("www.", "")`. -/
def domain_from_url (url : String) : String :=
  pyReplace (netlocOf url) "www." ""

/-- Models crawl.py `url_to_filename` (lines 60-70) — crawl-v2.py
`safe_filename` (lines 34-45) is the same computation: strip slashes from the
parsed path, default to `index`, replace `/ ? & = %` by underscores, append
`.md`. -/
def url_to_filename (url : String) : String :=
  let stripped := pyStripChars ['/'] (pathOf url)
  let base := if stripped = "" then "index" else stripped
  pyReplace (pyReplace (pyReplace (pyReplace (pyReplace base "/" "_") "?" "_") "&" "_") "=" "_") "%" "_" ++ ".md"

/-! ## Spec-side comparators and auxiliary notions -/

/-- Does the URL's parsed path end (case-insensitively) with a configured
skip-extension?  This is the filter the spec's Frontier contract describes
(crawl.py's `is_html_url` applies it per URL at fetch time). -/
def pathSkip (u : String) : Bool :=
  SKIP_EXTENSIONS.any (fun ext => pyEndsWith (pyLower (pathOf u)) ext)

/-- Spec-side comparator, following the claim's words for the frontier cap:
the deduplicated candidates with every skip-extension path removed, before
any cap is applied. -/
def specDedupFiltered (urls : List String) : List String :=
  (dedupFirstSeen urls).filter (fun u => !(pathSkip u))

/-- Index of the first occurrence of `x` (the position a first-seen
deduplication preserves); equals the length when `x` is absent. -/
def firstIdx (x : String) : List String → Nat
  | [] => 0
  | y :: ys => if y = x then 0 else firstIdx x ys + 1

/-! ## Concrete fixtures used by witnesses and counterexamples -/

/-- A corpus of five nested sitemap indexes ending in a urlset: the deepest
document is only reached at recursion depth 5. -/
def chainCorpus : Corpus := fun u =>
  if u = "https://e.com/s0.xml" then some (.index ["https://e.com/s1.xml"])
  else if u = "https://e.com/s1.xml" then some (.index ["https://e.com/s2.xml"])
  else if u = "https://e.com/s2.xml" then some (.index ["https://e.com/s3.xml"])
  else if u = "https://e.com/s3.xml" then some (.index ["https://e.com/s4.xml"])
  else if u = "https://e.com/s4.xml" then some (.index ["https://e.com/s5.xml"])
  else if u = "https://e.com/s5.xml" then some (.urlset [some "https://example.com/deep"])
  else none

/-- A corpus whose single sitemap lists the same page URL twice. -/
def dupCorpus : Corpus := fun u =>
  if u = "https://example.com/sitemap.xml" then
    some (.urlset [some "https://example.com/p", some "https://example.com/p"])
  else none

/-- A corpus with one unreachable sitemap and one good sitemap. -/
def mixedCorpus : Corpus := fun u =>
  if u = "https://good.example/sitemap.xml" then
    some (.urlset [some "https://good.example/page"])
  else none

/-- A corpus in which a non-`.xml` page URL fetches as an HTML document
(neither sitemap variant). -/
def pageCorpusA : Corpus := fun u =>
  if u = "https://example.com/page" then some .other else none

/-- Like `pageCorpusA` but the same non-`.xml` URL parses as a urlset —
distinguishing runs that fetch the seed from runs that do not. -/
def pageCorpusB : Corpus := fun u =>
  if u = "https://example.com/page" then some (.urlset [some "https://example.com/found"])
  else none

/-- A corpus whose sitemap lists a `.pdf` path hidden behind a query string. -/
def pdfQueryCorpus : Corpus := fun u =>
  if u = "https://example.com/sitemap.xml" then
    some (.urlset [some "https://example.com/a.pdf?x=1"])
  else none

/-- A small document: a script element followed by a paragraph. -/
def scriptDoc : HForest :=
  ofList [HNode.elem "html" none [] (ofList
    [HNode.elem "script" none [] (ofList [HNode.textNode "var x=1;"]),
     HNode.elem "p" none [] (ofList [HNode.textNode "Hello"])])]

/-- A plain paragraph document for the v1 fetch fixtures. -/
def paraDoc : HForest :=
  ofList [HNode.elem "p" none [] (ofList [HNode.textNode "hi"])]

/-- A v1 transport in which one URL answers 500 and every other URL answers
200 with `paraDoc`. -/
def v1Fetch500 : String → Option RespV1 := fun u =>
  if u = "https://example.com/bad" then some ⟨500, paraDoc⟩ else some ⟨200, paraDoc⟩

/-- Like `v1Fetch500` but the broken URL answers 200: the two transports
agree everywhere else. -/
def v1FetchOk : String → Option RespV1 := fun u =>
  if u = "https://example.com/bad" then some ⟨200, paraDoc⟩ else some ⟨200, paraDoc⟩

/-- A v2 sitemap fetcher: only the sitemap URL yields page URLs. -/
def v2FetchA : String → List String := fun u =>
  if u = "https://example.com/sitemap.xml" then ["https://example.com/p1"] else []

/-- A fetcher agreeing with `v2FetchA` on every `.xml` URL and differing
elsewhere. -/
def v2FetchB : String → List String := fun u =>
  if pyEndsWith u ".xml" then v2FetchA u else ["https://junk.example/x"]

/-! # Helper lemmas -/

theorem takeWhile_append_all (p : Char → Bool) (l t : List Char)
    (h : ∀ c ∈ l, p c = true) : (l ++ t).takeWhile p = l ++ t.takeWhile p := by
  induction l with
  | nil => simp
  | cons c cs ih =>
    have hc : p c = true := h c (List.mem_cons_self c cs)
    simp [List.takeWhile_cons, hc, ih (fun x hx => h x (List.mem_cons_of_mem c hx))]

theorem dropWhile_append_all (p : Char → Bool) (l t : List Char)
    (h : ∀ c ∈ l, p c = true) : (l ++ t).dropWhile p = t.dropWhile p := by
  induction l with
  | nil => simp
  | cons c cs ih =>
    have hc : p c = true := h c (List.mem_cons_self c cs)
    simp [List.dropWhile_cons, hc, ih (fun x hx => h x (List.mem_cons_of_mem c hx))]

theorem takeWhile_append_stop (p : Char → Bool) (l t : List Char)
    (h : ¬ ∀ c ∈ l, p c = true) : (l ++ t).takeWhile p = l.takeWhile p := by
  induction l with
  | nil => exact absurd (by simp) h
  | cons c cs ih =>
    by_cases hc : p c = true
    · have hcs : ¬ ∀ x ∈ cs, p x = true := by
        intro hall
        exact h (by
          intro x hx
          rcases List.mem_cons.mp hx with rfl | hx
          · exact hc
          · exact hall x hx)
      simp [List.takeWhile_cons, hc, ih hcs]
    · rw [Bool.not_eq_true] at hc
      simp [List.takeWhile_cons, hc]

theorem dropWhile_append_stop (p : Char → Bool) (l t : List Char)
    (h : ¬ ∀ c ∈ l, p c = true) : (l ++ t).dropWhile p = l.dropWhile p ++ t := by
  induction l with
  | nil => exact absurd (by simp) h
  | cons c cs ih =>
    by_cases hc : p c = true
    · have hcs : ¬ ∀ x ∈ cs, p x = true := by
        intro hall
        exact h (by
          intro x hx
          rcases List.mem_cons.mp hx with rfl | hx
          · exact hc
          · exact hall x hx)
      simp [List.dropWhile_cons, hc, ih hcs]
    · rw [Bool.not_eq_true] at hc
      simp [List.dropWhile_cons, hc]

theorem dropWhile_all (p : Char → Bool) (l : List Char)
    (h : ∀ c ∈ l, p c = true) : l.dropWhile p = [] := by
  induction l with
  | nil => rfl
  | cons c cs ih =>
    simp [List.dropWhile_cons, h c (List.mem_cons_self c cs),
      ih (fun x hx => h x (List.mem_cons_of_mem c hx))]

theorem afterSch_small (l : List Char) (h : l.length ≤ 1) : afterSch l = none := by
  cases l with
  | nil => rfl
  | cons c cs =>
    cases cs with
    | nil => simp [afterSch]
    | cons d ds => simp at h

theorem afterSch_append (l x r : List Char) (h : afterSch l = some r) :
    afterSch (l ++ x) = some (r ++ x) := by
  induction l with
  | nil => simp [afterSch] at h
  | cons c cs ih =>
    by_cases hc : c = ':' ∧ cs.take 2 = ['/', '/']
    · have hlen : 2 ≤ cs.length := by
        have h2 : (cs.take 2).length = 2 := by rw [hc.2]; rfl
        rw [List.length_take] at h2
        omega
      have hr : cs.drop 2 = r := by
        simpa [afterSch, hc] using h
      have hcond : c = ':' ∧ (cs ++ x).take 2 = ['/', '/'] :=
        ⟨hc.1, by rw [List.take_append_of_le_length hlen]; exact hc.2⟩
      show afterSch (c :: (cs ++ x)) = some (r ++ x)
      rw [afterSch.eq_def]
      simp only [hcond, and_self, if_true]
      rw [List.drop_append_of_le_length hlen, hr]
    · have hcs : afterSch cs = some r := by
        simpa [afterSch, hc] using h
      by_cases h2 : 2 ≤ cs.length
      · have hcond : ¬ (c = ':' ∧ (cs ++ x).take 2 = ['/', '/']) := by
          rw [List.take_append_of_le_length h2]
          exact hc
        show afterSch (c :: (cs ++ x)) = some (r ++ x)
        rw [afterSch.eq_def]
        simp only [hcond, if_false]
        exact ih hcs
      · rw [afterSch_small cs (by omega)] at hcs
        exact absurd hcs (by simp)

theorem afterSch_mem (l r : List Char) (h : afterSch l = some r) : ∀ c ∈ r, c ∈ l := by
  induction l with
  | nil => simp [afterSch] at h
  | cons c cs ih =>
    by_cases hc : c = ':' ∧ cs.take 2 = ['/', '/']
    · have hr : cs.drop 2 = r := by simpa [afterSch, hc] using h
      intro a ha
      rw [← hr] at ha
      exact List.mem_cons_of_mem c (List.mem_of_mem_drop ha)
    · have hcs : afterSch cs = some r := by simpa [afterSch, hc] using h
      intro a ha
      exact List.mem_cons_of_mem c (ih hcs a ha)

theorem isPfx_append_self (l t : List Char) : isPfx l (l ++ t) = true := by
  induction l with
  | nil => rfl
  | cons c cs ih => simp [isPfx, ih]

theorem hasSub_cons (pat : List Char) (c : Char) (cs : List Char)
    (h : hasSub pat (c :: cs) = false) :
    isPfx pat (c :: cs) = false ∧ hasSub pat cs = false := by
  simpa [hasSub] using h

theorem pyReplaceFuel_no_occ (old new : List Char) :
    ∀ fuel l, old ≠ [] → hasSub old l = false → l.length ≤ fuel →
      pyReplaceFuel old new fuel l = l := by
  intro fuel
  induction fuel with
  | zero =>
    intro l _ _ hl
    have : l = [] := List.eq_nil_of_length_eq_zero (Nat.le_zero.mp hl)
    rw [this]
    rfl
  | succ f ih =>
    intro l h0 hsub hl
    cases l with
    | nil => rfl
    | cons c cs =>
      obtain ⟨h1, h2⟩ := hasSub_cons old c cs hsub
      rw [pyReplaceFuel.eq_def]
      simp only [h1, Bool.false_and]
      rw [if_neg (by simp)]
      rw [ih cs h0 h2 (by simpa using Nat.le_of_succ_le_succ hl)]

theorem pyReplaceFuel_head (old new rest : List Char) (fuel : Nat)
    (h0 : old ≠ []) (hsub : hasSub old rest = false) (hf : rest.length ≤ fuel) :
    pyReplaceFuel old new (fuel + 1) (old ++ rest) = new ++ rest := by
  cases old with
  | nil => exact absurd rfl h0
  | cons o os =>
    have hp : isPfx (o :: os) (o :: (os ++ rest)) = true := isPfx_append_self (o :: os) rest
    show pyReplaceFuel (o :: os) new (fuel + 1) (o :: (os ++ rest)) = new ++ rest
    rw [pyReplaceFuel.eq_def]
    simp only [hp, List.isEmpty_cons, Bool.not_false, Bool.and_true, if_true]
    have hdrop : (os ++ rest).drop ((o :: os).length - 1) = rest := by
      simp only [List.length_cons, Nat.add_sub_cancel]
      exact List.drop_left os rest
    rw [hdrop, pyReplaceFuel_no_occ (o :: os) new fuel rest h0 hsub hf]

theorem pyReplace_no_occ (s old new : String) (h0 : old.data ≠ [])
    (h : hasSub old.data s.data = false) : pyReplace s old new = s := by
  unfold pyReplace
  rw [pyReplaceFuel_no_occ old.data new.data s.data.length s.data h0 h (le_refl _)]

theorem pyReplace_head (s old new rest : String)
    (hdat : s.data = old.data ++ rest.data)
    (h0 : old.data ≠ []) (hsub : hasSub old.data rest.data = false) :
    pyReplace s old new = new ++ rest := by
  unfold pyReplace
  have hlen : 0 < old.data.length := List.length_pos.mpr h0
  rw [hdat]
  have hsplit : (old.data ++ rest.data).length = ((old.data ++ rest.data).length - 1) + 1 := by
    simp only [List.length_append]
    omega
  rw [hsplit]
  have hfu : rest.data.length ≤ (old.data ++ rest.data).length - 1 := by
    simp only [List.length_append]
    omega
  rw [pyReplaceFuel_head old.data new.data rest.data ((old.data ++ rest.data).length - 1) h0 hsub hfu]
  rfl

theorem pathOf_stop (base u : String) (stopChar : Char) (ext r : List Char)
    (hu : u.data = base.data ++ stopChar :: ext)
    (hb : ∀ c ∈ base.data, keepPath c = true)
    (hs : afterSch base.data = some r)
    (h1 : keepPath stopChar = false) (h2 : keepNetloc stopChar = false) :
    pathOf u = pathOf base := by
  have hr : ∀ c ∈ r, keepPath c = true := fun c hc => hb c (afterSch_mem base.data r hs c hc)
  unfold pathOf hostPath
  rw [hu, afterSch_append base.data (stopChar :: ext) r hs, hs]
  simp only
  by_cases hall : ∀ c ∈ r, keepNetloc c = true
  · rw [dropWhile_append_all keepNetloc r (stopChar :: ext) hall,
      List.dropWhile_cons_of_neg (by simp [h2]), dropWhile_all keepNetloc r hall]
    simp [List.takeWhile_cons_of_neg, h1]
  · rw [dropWhile_append_stop keepNetloc r (stopChar :: ext) hall]
    have hdw : ∀ c ∈ r.dropWhile keepNetloc, keepPath c = true :=
      fun c hc => hr c ((List.dropWhile_sublist keepNetloc).subset hc)
    rw [takeWhile_append_all keepPath (r.dropWhile keepNetloc) (stopChar :: ext) hdw,
      List.takeWhile_cons_of_neg (by simp [h1]),
      List.takeWhile_eq_self_iff.mpr hdw]
    simp

/-! # Claims C9 and C10: path mapping -/

/-- Claim C9 counterexample: the domain key of a URL whose host contains
`www.` in the middle is not returned unchanged — `str.replace` removes every
occurrence, so `news.www.example.com` becomes `news.example.com`. -/
theorem c9_counterexample :
    domain_from_url "https://news.www.example.com/p" = "news.example.com"
    ∧ "news.example.com" ≠ "news.www.example.com" :=
  ⟨rfl, by decide⟩

/-- Claim C9 (amended): the domain key removes every occurrence of the
substring `www.` from the host.  When the host does not contain `www.` at
all it is returned unchanged, and when `www.` occurs exactly once, as a
leading prefix, the key is the host with that prefix stripped. -/
theorem c9_amended (url rest : String) :
    (hasSub ("www.").data (netlocOf url).data = false →
      domain_from_url url = netlocOf url)
    ∧ ((netlocOf url).data = ("www.").data ++ rest.data →
        hasSub ("www.").data rest.data = false →
        domain_from_url url = rest) := by
  constructor
  · intro h
    exact pyReplace_no_occ (netlocOf url) "www." "" (by decide) h
  · intro hdat hsub
    have hrepl := pyReplace_head (netlocOf url) "www." "" rest hdat (by decide) hsub
    unfold domain_from_url
    rw [hrepl]
    rfl

/-- Witness for `c9_amended` at concrete hosts. -/
theorem c9_amended_witness :
    domain_from_url "https://www.example.com/p" = "example.com"
    ∧ domain_from_url "https://api.example.com/p" = netlocOf "https://api.example.com/p" := by
  constructor
  · exact (c9_amended "https://www.example.com/p" "example.com").2 (by decide) (by decide)
  · exact (c9_amended "https://api.example.com/p" "").1 (by decide)

/-- Claim C10 (confirmed): the artifact filename depends on the URL only
through its parsed path; appending a query string or a fragment to a URL
(whose pre-query part is free of `?` and `#` and has a scheme separator)
never changes the filename, and any two URLs with equal parsed paths map to
the same filename. -/
theorem c10_query_fragment_discarded (base q frag u1 u2 : String) (r : List Char)
    (hb : ∀ c ∈ base.data, keepPath c = true)
    (hs : afterSch base.data = some r) :
    url_to_filename (base ++ "?" ++ q) = url_to_filename base
    ∧ url_to_filename (base ++ "#" ++ frag) = url_to_filename base
    ∧ (pathOf u1 = pathOf u2 → url_to_filename u1 = url_to_filename u2) := by
  have hcong : ∀ (v w : String), pathOf v = pathOf w → url_to_filename v = url_to_filename w := by
    intro v w h
    unfold url_to_filename
    rw [h]
  refine ⟨?_, ?_, hcong u1 u2⟩
  · refine hcong _ _ (pathOf_stop base (base ++ "?" ++ q) '?' q.data r ?_ hb hs (by decide) (by decide))
    rw [String.data_append, String.data_append]
    simp [List.append_assoc]
  · refine hcong _ _ (pathOf_stop base (base ++ "#" ++ frag) '#' frag.data r ?_ hb hs (by decide) (by decide))
    rw [String.data_append, String.data_append]
    simp [List.append_assoc]

/-- Witness for `c10_query_fragment_discarded` at a concrete URL. -/
theorem c10_query_fragment_discarded_witness :
    url_to_filename "https://example.com/a/b?x=1&y=2" = url_to_filename "https://example.com/a/b"
    ∧ url_to_filename "https://example.com/a/b#top" = url_to_filename "https://example.com/a/b"
    ∧ url_to_filename "https://example.com/a/b" = "a_b.md" := by
  have h := c10_query_fragment_discarded "https://example.com/a/b" "x=1&y=2" "top"
    "https://example.com/a/b" "https://example.com/a/b" ("example.com/a/b").data
    (by decide) (by decide)
  exact ⟨h.1, h.2.1, rfl⟩

/-! # Sitemap expansion lemmas -/

theorem expand_fail (corpus : Corpus) (s : String) (h : corpus s = none) :
    ∀ fuel depth m, expand_sitemap_url corpus fuel s depth m = [] := by
  intro fuel depth m
  cases fuel with
  | zero => rfl
  | succ f => simp [expand_sitemap_url, h]

theorem expand_maxdepth_irrelevant (corpus : Corpus) :
    ∀ fuel url depth m m',
      expand_sitemap_url corpus fuel url depth m = expand_sitemap_url corpus fuel url depth m' := by
  intro fuel
  induction fuel with
  | zero => intro url depth m m'; rfl
  | succ f ih =>
    intro url depth m m'
    cases h : corpus url with
    | none => simp [expand_sitemap_url, h]
    | some d =>
      cases d with
      | index locs =>
        simp only [expand_sitemap_url, h]
        exact congrArg locs.flatMap (funext fun sm => ih (pyStrip sm) (depth + 1) m m')
      | urlset entries => simp [expand_sitemap_url, h]
      | other => simp [expand_sitemap_url, h]

theorem expand_no_skip (corpus : Corpus) :
    ∀ fuel s depth m url, url ∈ expand_sitemap_url corpus fuel s depth m →
      SKIP_EXTENSIONS.any (fun ext => pyEndsWith (pyLower url) ext) = false := by
  intro fuel
  induction fuel with
  | zero =>
    intro s depth m url h
    simp [expand_sitemap_url] at h
  | succ f ih =>
    intro s depth m url h
    cases hc : corpus s with
    | none =>
      rw [expand_fail corpus s hc (f + 1) depth m] at h
      simp at h
    | some d =>
      cases d with
      | index locs =>
        simp only [expand_sitemap_url, hc, List.mem_flatMap] at h
        obtain ⟨sm, _, hmem⟩ := h
        exact ih (pyStrip sm) (depth + 1) m url hmem
      | urlset entries =>
        simp only [expand_sitemap_url, hc, List.mem_filterMap] at h
        obtain ⟨e, _, hfe⟩ := h
        cases e with
        | none => simp at hfe
        | some t =>
          dsimp only at hfe
          split_ifs at hfe with h1 h2
          · rw [← Option.some.inj hfe]
            exact Bool.not_eq_true _ |>.mp h2
      | other => simp [expand_sitemap_url, hc] at h

/-! # Claim C1: the depth cap -/

/-- Claim C1 (code-bug evidence): `expand_sitemap_url` never enforces its
`max_depth` parameter.  On a chain of five nested indexes the page URL
discovered at recursion depth 5 is still emitted with `max_depth = 3`, and in
general the result is independent of the `max_depth` argument — the parameter
is dead. -/
theorem c1_depth_cap_never_enforced :
    expand_sitemap_url chainCorpus 10 "https://e.com/s0.xml" 0 3 = ["https://example.com/deep"]
    ∧ ∀ (corpus : Corpus) (fuel : Nat) (url : String) (depth m m' : Nat),
        expand_sitemap_url corpus fuel url depth m = expand_sitemap_url corpus fuel url depth m' :=
  ⟨rfl, fun corpus fuel url depth m m' => expand_maxdepth_irrelevant corpus fuel url depth m m'⟩

/-! # Claim C4: failure isolation during resolution -/

/-- Claim C4 counterexample: in crawl-v1.py a failing sitemap source aborts
the whole resolution.  With one unreachable and one good sitemap, `v1Resolve`
ends in the propagated error and the good sitemap's URL (which
`parse_sitemap` alone would deliver) is lost. -/
theorem c4_counterexample :
    v1Resolve mixedCorpus
        ["https://bad.example/sitemap.xml", "https://good.example/sitemap.xml"]
      = .error "https://bad.example/sitemap.xml"
    ∧ parse_sitemap_v1 mixedCorpus "https://good.example/sitemap.xml"
      = .ok ["https://good.example/page"] :=
  ⟨rfl, rfl⟩

/-- Claim C4 (amended, for crawl.py): a source whose fetch or parse fails
contributes zero URLs, the remaining seeds resolve exactly as if the bad seed
were absent, and inside an index document a failing child leaves its siblings'
contributions intact. -/
theorem c4_amended (corpus : Corpus) (fuel : Nat) (pre post : List String) (s : String)
    (hfail : corpus s = none) (hstrip : pyStrip s = s) :
    (∀ depth m, expand_sitemap_url corpus fuel s depth m = [])
    ∧ get_urls_from_config corpus fuel (pre ++ s :: post)
        = get_urls_from_config corpus fuel pre ++ get_urls_from_config corpus fuel post
    ∧ ∀ t l1 l2 depth m, corpus t = some (.index (l1 ++ s :: l2)) →
        expand_sitemap_url corpus (fuel + 1) t depth m
          = (l1 ++ l2).flatMap
              (fun c => expand_sitemap_url corpus fuel (pyStrip c) (depth + 1) m) := by
  refine ⟨fun depth m => expand_fail corpus s hfail fuel depth m, ?_, ?_⟩
  · simp [get_urls_from_config, List.flatMap_append, List.flatMap_cons,
      expand_fail corpus s hfail fuel 0 3]
  · intro t l1 l2 depth m ht
    simp only [expand_sitemap_url, ht, List.flatMap_append, List.flatMap_cons]
    rw [hstrip, expand_fail corpus s hfail fuel (depth + 1) m]
    simp

/-- Witness for `c4_amended`: the unreachable sitemap contributes nothing
and the good one's page survives. -/
theorem c4_amended_witness :
    expand_sitemap_url mixedCorpus 5 "https://bad.example/sitemap.xml" 0 3 = []
    ∧ get_urls_from_config mixedCorpus 5
        ["https://bad.example/sitemap.xml", "https://good.example/sitemap.xml"]
      = ["https://good.example/page"] := by
  have h := c4_amended mixedCorpus 5 [] ["https://good.example/sitemap.xml"]
    "https://bad.example/sitemap.xml" (by decide) rfl
  exact ⟨h.1 0 3, h.2.1.trans rfl⟩

/-! # Claim C8: the extension filter and the frontier -/

/-- Claim C8 counterexample: a sitemap location whose parsed path ends with
the skip-extension `.pdf` appears in crawl.py's built frontier anyway,
because the code filters on the whole URL string and the query suffix hides
the extension. -/
theorem c8_counterexample :
    "https://example.com/a.pdf?x=1"
        ∈ frontierCrawl pdfQueryCorpus 5 ["https://example.com/sitemap.xml"] 20
    ∧ pyEndsWith (pyLower (pathOf "https://example.com/a.pdf?x=1")) ".pdf" = true
    ∧ ".pdf" ∈ SKIP_EXTENSIONS :=
  ⟨by decide, by decide, by decide⟩

/-- Claim C8 (amended): crawl.py's extension filter runs before the cap but
tests the lower-cased full URL string, not the parsed path: every URL in the
built frontier has a full string ending in no skip-extension. -/
theorem c8_amended (corpus : Corpus) (fuel : Nat) (seeds : List String) (maxUrls : Nat)
    (url : String) (h : url ∈ frontierCrawl corpus fuel seeds maxUrls) :
    SKIP_EXTENSIONS.any (fun ext => pyEndsWith (pyLower url) ext) = false := by
  have h1 : url ∈ get_urls_from_config corpus fuel seeds :=
    (List.take_sublist maxUrls _).subset h
  rw [get_urls_from_config, List.mem_flatMap] at h1
  obtain ⟨s, _, hmem⟩ := h1
  exact expand_no_skip corpus fuel s 0 3 url hmem

/-- Witness for `c8_amended` at the pdf-behind-a-query frontier entry. -/
theorem c8_amended_witness :
    "https://example.com/a.pdf?x=1"
        ∈ frontierCrawl pdfQueryCorpus 5 ["https://example.com/sitemap.xml"] 20
    ∧ SKIP_EXTENSIONS.any
        (fun ext => pyEndsWith (pyLower "https://example.com/a.pdf?x=1") ext) = false :=
  ⟨by decide,
   c8_amended pdfQueryCorpus 5 ["https://example.com/sitemap.xml"] 20
     "https://example.com/a.pdf?x=1" (by decide)⟩

/-! # Deduplication lemmas -/

theorem dedupAux_mem (x : String) :
    ∀ (l seen : List String), x ∈ dedupAux seen l ↔ x ∈ l ∧ x ∉ seen := by
  intro l
  induction l with
  | nil => intro seen; simp [dedupAux]
  | cons y ys ih =>
    intro seen
    by_cases hy : y ∈ seen
    · rw [dedupAux, if_pos hy, ih seen]
      constructor
      · rintro ⟨hx, hns⟩
        exact ⟨List.mem_cons_of_mem y hx, hns⟩
      · rintro ⟨hx, hns⟩
        rcases List.mem_cons.mp hx with rfl | hx
        · exact absurd hy hns
        · exact ⟨hx, hns⟩
    · rw [dedupAux, if_neg hy]
      constructor
      · intro hx
        rcases List.mem_cons.mp hx with rfl | hx
        · exact ⟨List.mem_cons_self x ys, hy⟩
        · obtain ⟨h1, h2⟩ := (ih (y :: seen)).mp hx
          have : x ∉ seen := fun hc => h2 (List.mem_cons_of_mem y hc)
          exact ⟨List.mem_cons_of_mem y h1, this⟩
      · rintro ⟨hx, hns⟩
        by_cases hxy : x = y
        · exact hxy ▸ List.mem_cons_self x _
        · rcases List.mem_cons.mp hx with rfl | hx
          · exact absurd rfl hxy
          · refine List.mem_cons_of_mem y ((ih (y :: seen)).mpr ⟨hx, ?_⟩)
            intro hc
            rcases List.mem_cons.mp hc with h | h
            · exact hxy h
            · exact hns h

theorem dedupAux_nodup : ∀ (l seen : List String), (dedupAux seen l).Nodup := by
  intro l
  induction l with
  | nil => intro seen; simp [dedupAux]
  | cons y ys ih =>
    intro seen
    by_cases hy : y ∈ seen
    · rw [dedupAux, if_pos hy]
      exact ih seen
    · rw [dedupAux, if_neg hy]
      refine List.nodup_cons.mpr ⟨?_, ih (y :: seen)⟩
      intro hc
      exact ((dedupAux_mem y ys (y :: seen)).mp hc).2 (List.mem_cons_self y seen)

theorem dedupAux_sublist : ∀ (l seen : List String), List.Sublist (dedupAux seen l) l := by
  intro l
  induction l with
  | nil => intro seen; simp [dedupAux]
  | cons y ys ih =>
    intro seen
    by_cases hy : y ∈ seen
    · rw [dedupAux, if_pos hy]
      exact (ih seen).cons y
    · rw [dedupAux, if_neg hy]
      exact (ih (y :: seen)).cons₂ y

theorem nodup_count_one (l : List String) (h : l.Nodup) (x : String) (hx : x ∈ l) :
    l.count x = 1 := by
  induction l with
  | nil => simp at hx
  | cons y ys ih =>
    obtain ⟨hny, hys⟩ := List.nodup_cons.mp h
    rcases List.mem_cons.mp hx with rfl | hx
    · rw [List.count_cons_self, List.count_eq_zero_of_not_mem hny]
    · rw [List.count_cons_of_ne (fun hc => hny (by rw [← hc]; exact hx)), ih hys hx]

theorem firstIdx_append (x : String) (pre rest : List String) (h : x ∉ pre) :
    firstIdx x (pre ++ rest) = pre.length + firstIdx x rest := by
  induction pre with
  | nil => simp
  | cons p ps ih =>
    have hpx : ¬ p = x := fun hc => h (hc ▸ List.mem_cons_self p ps)
    rw [List.cons_append, firstIdx, if_neg hpx,
      ih (fun hc => h (List.mem_cons_of_mem p hc)), List.length_cons]
    omega

theorem dedupAux_pairwise :
    ∀ (l pre seen L : List String), L = pre ++ l → (∀ x, x ∈ seen ↔ x ∈ pre) →
      (dedupAux seen l).Pairwise (fun a b => firstIdx a L < firstIdx b L) := by
  intro l
  induction l with
  | nil => intro pre seen L _ _; simp [dedupAux]
  | cons y ys ih =>
    intro pre seen L hL hseen
    by_cases hy : y ∈ seen
    · rw [dedupAux, if_pos hy]
      refine ih (pre ++ [y]) seen L (by simp [hL]) ?_
      intro x
      rw [hseen x]
      constructor
      · intro hx
        exact List.mem_append_left [y] hx
      · intro hx
        rcases List.mem_append.mp hx with hx | hx
        · exact hx
        · rcases List.mem_singleton.mp hx with rfl
          exact (hseen x).mp hy
    · rw [dedupAux, if_neg hy]
      have hypre : y ∉ pre := fun hc => hy ((hseen y).mpr hc)
      refine List.pairwise_cons.mpr ⟨?_, ?_⟩
      · intro b hb
        obtain ⟨hbys, hbseen⟩ := (dedupAux_mem b ys (y :: seen)).mp hb
        have hbny : ¬ y = b := fun hc => hbseen (hc ▸ List.mem_cons_self y seen)
        have hbpre : b ∉ pre :=
          fun hc => hbseen (List.mem_cons_of_mem y ((hseen b).mpr hc))
        rw [hL, firstIdx_append y pre (y :: ys) hypre,
          firstIdx_append b pre (y :: ys) hbpre, firstIdx, if_pos rfl, firstIdx, if_neg hbny]
        omega
      · refine ih (pre ++ [y]) (y :: seen) L (by simp [hL]) ?_
        intro x
        constructor
        · intro hx
          rcases List.mem_cons.mp hx with rfl | hx
          · exact List.mem_append_right pre (List.mem_singleton_self x)
          · exact List.mem_append_left [y] ((hseen x).mp hx)
        · intro hx
          rcases List.mem_append.mp hx with hx | hx
          · exact List.mem_cons_of_mem y ((hseen x).mpr hx)
          · rcases List.mem_singleton.mp hx with rfl
            exact List.mem_cons_self x seen

/-! # Claims C2, C3: the frontier -/

/-- Claim C2 counterexample: with candidates `[a.pdf, b]`, a cap of 0 gives
an empty frontier (not an unbounded one), and a cap of 2 gives length 2
although only one deduplicated candidate survives the path-extension filter —
`min(N, |deduplicated, filtered|)` would be 1. -/
theorem c2_counterexample :
    (frontierV2 ["https://example.com/a.pdf", "https://example.com/b"] 0).length = 0
    ∧ (specDedupFiltered ["https://example.com/a.pdf", "https://example.com/b"]).length = 1
    ∧ (frontierV2 ["https://example.com/a.pdf", "https://example.com/b"] 2).length = 2
    ∧ (frontierV2 ["https://example.com/a.pdf", "https://example.com/b"] 2).length
        ≠ min 2 (specDedupFiltered ["https://example.com/a.pdf", "https://example.com/b"]).length :=
  ⟨by decide, by decide, by decide, by decide⟩

/-- Claim C2 (amended): the frontier crawl-v2.py builds is the first-seen
deduplication of the candidates truncated to the first `N`; its length is
`min N` of the deduplicated count (extension filtering happens later, per URL
at fetch time), a cap of 0 yields the empty frontier, and a cap at least the
deduplicated count keeps everything. -/
theorem c2_amended (urls : List String) (N : Nat) :
    (frontierV2 urls N).length = min N (dedupFirstSeen urls).length
    ∧ frontierV2 urls 0 = []
    ∧ ((dedupFirstSeen urls).length ≤ N → frontierV2 urls N = dedupFirstSeen urls) :=
  ⟨List.length_take N _, rfl, fun h => List.take_of_length_le h⟩

/-- Witness for `c2_amended` on a concrete candidate list. -/
theorem c2_amended_witness :
    (frontierV2 ["https://example.com/a", "https://example.com/b", "https://example.com/a"] 5).length
      = min 5 (dedupFirstSeen
          ["https://example.com/a", "https://example.com/b", "https://example.com/a"]).length
    ∧ frontierV2 ["https://example.com/a", "https://example.com/b", "https://example.com/a"] 0 = []
    ∧ frontierV2 ["https://example.com/a", "https://example.com/b", "https://example.com/a"] 5
      = dedupFirstSeen ["https://example.com/a", "https://example.com/b", "https://example.com/a"] := by
  have h := c2_amended ["https://example.com/a", "https://example.com/b", "https://example.com/a"] 5
  exact ⟨h.1, h.2.1, h.2.2 (by decide)⟩

/-- Claim C3 counterexample: crawl.py performs no deduplication at all — a
sitemap listing the same page twice yields a built frontier containing that
URL twice. -/
theorem c3_counterexample :
    (frontierCrawl dupCorpus 5 ["https://example.com/sitemap.xml"] 20).count
      "https://example.com/p" = 2 := by decide

/-- Claim C3 (amended, for crawl-v2.py): the deduplicated list contains each
candidate exactly once, is a subsequence of the input, lists entries in
strictly increasing order of first occurrence, and the capped frontier is
duplicate-free. -/
theorem c3_amended (l : List String) (N : Nat) :
    (∀ x ∈ l, (dedupFirstSeen l).count x = 1)
    ∧ List.Sublist (dedupFirstSeen l) l
    ∧ (dedupFirstSeen l).Pairwise (fun a b => firstIdx a l < firstIdx b l)
    ∧ (frontierV2 l N).Nodup := by
  refine ⟨?_, dedupAux_sublist l [], ?_, ?_⟩
  · intro x hx
    have hmem : x ∈ dedupFirstSeen l := (dedupAux_mem x l []).mpr ⟨hx, by simp⟩
    exact nodup_count_one _ (dedupAux_nodup l []) x hmem
  · exact dedupAux_pairwise l [] [] l rfl (by simp)
  · exact (dedupAux_nodup l []).sublist (List.take_sublist N _)

/-- Witness for `c3_amended` on a concrete duplicated candidate list. -/
theorem c3_amended_witness :
    (dedupFirstSeen
        ["https://example.com/p", "https://example.com/q", "https://example.com/p"]).count
      "https://example.com/p" = 1
    ∧ (frontierV2 ["https://example.com/p", "https://example.com/q", "https://example.com/p"] 5).Nodup := by
  have h := c3_amended ["https://example.com/p", "https://example.com/q", "https://example.com/p"] 5
  exact ⟨h.1 "https://example.com/p" (by decide), h.2.2.2⟩

/-! # Claim C7: seed dispatch on the `.xml` suffix -/

/-- Claim C7 counterexample: crawl.py treats every configured seed as a
sitemap.  A seed not ending in `.xml` is not emitted as a candidate URL (the
run yields `[]` when it parses as an HTML page) and it is fetched and parsed:
the output depends on what the fetch of that very seed returns. -/
theorem c7_counterexample :
    pyEndsWith "https://example.com/page" ".xml" = false
    ∧ get_urls_from_config pageCorpusA 5 ["https://example.com/page"] = []
    ∧ get_urls_from_config pageCorpusB 5 ["https://example.com/page"]
      = ["https://example.com/found"] :=
  ⟨by decide, rfl, rfl⟩

/-- Claim C7 (amended, for crawl-v2.py): a seed not ending in `.xml` is
emitted directly, in place, as a candidate URL, and the collected output
consults the fetch-and-parse capability only on seeds ending in `.xml`. -/
theorem c7_amended (f g : String → List String) (pre post : List String) (s : String)
    (hs : pyEndsWith s ".xml" = false)
    (hagree : ∀ u, pyEndsWith u ".xml" = true → f u = g u) :
    v2CollectUrls f (pre ++ s :: post) = v2CollectUrls f pre ++ s :: v2CollectUrls f post
    ∧ ∀ seeds, v2CollectUrls f seeds = v2CollectUrls g seeds := by
  constructor
  · simp [v2CollectUrls, List.flatMap_append, List.flatMap_cons, hs]
  · intro seeds
    induction seeds with
    | nil => rfl
    | cons a as ih =>
      simp only [v2CollectUrls, List.flatMap_cons] at ih ⊢
      by_cases ha : pyEndsWith a ".xml" = true
      · rw [if_pos ha, if_pos ha, hagree a ha, ih]
      · rw [Bool.not_eq_true] at ha
        rw [if_neg (by simp [ha]), if_neg (by simp [ha]), ih]

/-- Witness for `c7_amended` on a concrete seed list and fetchers. -/
theorem c7_amended_witness :
    v2CollectUrls v2FetchA ["https://example.com/page", "https://example.com/sitemap.xml"]
      = ["https://example.com/page", "https://example.com/p1"]
    ∧ v2CollectUrls v2FetchA ["https://example.com/page"]
      = v2CollectUrls v2FetchB ["https://example.com/page"] := by
  have h := c7_amended v2FetchA v2FetchB [] ["https://example.com/sitemap.xml"]
    "https://example.com/page" (by decide)
    (fun u hu => by simp [v2FetchB, hu])
  exact ⟨h.1.trans rfl, h.2 ["https://example.com/page"]⟩

/-! # Claim C5: extraction fallback -/

theorem selectLoop_none (doc : HForest) :
    ∀ sels, (∀ sel ∈ sels, selectF sel doc = []) → selectLoop doc sels = none := by
  intro sels
  induction sels with
  | nil => intro _; rfl
  | cons sel rest ih =>
    intro h
    simp only [selectLoop, h sel (List.mem_cons_self sel rest)]
    exact ih (fun x hx => h x (List.mem_cons_of_mem sel hx))

/-- Claim C5 counterexample: crawl.py's `scrape_content` fallback does not
remove non-content elements first — with no selector matching, the returned
full-document text still contains the script body, unlike the text produced
after removing `script`, `style` and `noscript`. -/
theorem c5_counterexample :
    scrape_content "#primary" scriptDoc = "var x=1; Hello"
    ∧ getTextSep (removeTagsF ["script", "style", "noscript"] scriptDoc) = "Hello"
    ∧ ("var x=1; Hello" : String) ≠ "Hello" :=
  ⟨rfl, rfl, by decide⟩

/-- Claim C5 (amended, for crawl-v2.py): whenever no configured selector
matches any node (in particular when none are configured), `extract_content`
returns the whitespace-collapsed full-document text with `script`, `style`
and `noscript` elements removed first.  The fallback branch itself is the
only record that no rule matched. -/
theorem c5_amended (css : String) (doc : HForest)
    (h : ∀ sel ∈ selectorsOf css, selectF sel doc = []) :
    extract_content css doc = getTextSep (removeTagsF ["script", "style", "noscript"] doc) := by
  have hsels : selectLoop doc (if css = "" then [] else selectorsOf css) = none := by
    by_cases hcss : css = ""
    · rw [if_pos hcss]; rfl
    · rw [if_neg hcss]; exact selectLoop_none doc (selectorsOf css) h
  simp only [extract_content]
  rw [hsels]

/-- Witness for `c5_amended` on a concrete document with a script element. -/
theorem c5_amended_witness :
    selectF "#primary" scriptDoc = []
    ∧ extract_content "#primary" scriptDoc
      = getTextSep (removeTagsF ["script", "style", "noscript"] scriptDoc) := by
  refine ⟨rfl, c5_amended "#primary" scriptDoc ?_⟩
  intro sel hsel
  have hone : selectorsOf "#primary" = ["#primary"] := rfl
  rw [hone, List.mem_singleton] at hsel
  subst hsel
  rfl

/-! # Claim C6: per-URL failure isolation in the crawl loop -/

/-- Claim C6 (confirmed, on crawl-v1.py): when the transport answers 500 for
one URL, that URL's outcome is `failed` (an uncaught `raise_for_status` error
captured inside `fetch_page`), every other URL's outcome is unchanged by what
the transport answers for the broken URL, and the run still yields exactly
one outcome per frontier URL. -/
theorem c6_failure_isolation (fetch fetch' : String → Option RespV1) (urls : List String)
    (u0 : String) (r : RespV1)
    (h1 : fetch u0 = some r) (h2 : r.status = 500)
    (h3 : V1_SKIP_EXTENSIONS.any (fun ext => pyEndsWith (pyLower u0) ext) = false)
    (h4 : ∀ u, u ≠ u0 → fetch' u = fetch u) :
    processV1 fetch u0 = .failed
    ∧ (∀ u, u ≠ u0 → processV1 fetch u = processV1 fetch' u)
    ∧ (crawlV1Run fetch urls).map Prod.fst = urls
    ∧ ∀ u ∈ urls, (u, processV1 fetch u) ∈ crawlV1Run fetch urls := by
  refine ⟨?_, ?_, ?_, ?_⟩
  · have hfp : fetch_page fetch u0 = none := by
      simp [fetch_page, h1, h2]
    simp [processV1, h3, hfp]
  · intro u hu
    simp only [processV1, fetch_page]
    rw [h4 u hu]
  · simp only [crawlV1Run, List.map_map]
    induction urls with
    | nil => rfl
    | cons a as ih => simp only [List.map_cons, Function.comp_apply, ih]
  · intro u hu
    exact List.mem_map.mpr ⟨u, hu, rfl⟩

/-- Witness for `c6_failure_isolation` with concrete transports. -/
theorem c6_failure_isolation_witness :
    processV1 v1Fetch500 "https://example.com/bad" = .failed
    ∧ processV1 v1Fetch500 "https://example.com/ok" = processV1 v1FetchOk "https://example.com/ok"
    ∧ (crawlV1Run v1Fetch500 ["https://example.com/bad", "https://example.com/ok"]).map Prod.fst
      = ["https://example.com/bad", "https://example.com/ok"]
    ∧ ("https://example.com/ok", processV1 v1Fetch500 "https://example.com/ok")
      ∈ crawlV1Run v1Fetch500 ["https://example.com/bad", "https://example.com/ok"] := by
  have h := c6_failure_isolation v1Fetch500 v1FetchOk
    ["https://example.com/bad", "https://example.com/ok"] "https://example.com/bad"
    ⟨500, paraDoc⟩ rfl rfl (by decide)
    (fun u hu => by simp [v1FetchOk, v1Fetch500, hu])
  exact ⟨h.1, h.2.1 "https://example.com/ok" (by decide), h.2.2.1,
    h.2.2.2 "https://example.com/ok" (by decide)⟩
